import Mathlib

/-!
# Packet processor (`processor_challenge.cpp`)

A shallow embedding of `DataPacket` and `PacketProcessor`.

Machine model: the LP64 data model of x86-64 Linux, the platform of the
Valgrind tools the program is written for: `char` is a signed 8-bit integer,
`size_t` is an unsigned 64-bit integer, `long` is a signed 64-bit integer.

Memory model: a heap block is a list of cells; a cell that was never written
holds no value.  A call whose behaviour the language leaves undefined (a read
of such a cell, an access outside a block or through a null or dangling
pointer, an overflow of signed arithmetic) has the outcome `undefined`.

The file also embeds `processing_worker` of the same program and
`generate_validation_code` and `update_inventory` of `inventory.cpp`.
-/

namespace Challenge

/-- One byte of heap memory: `none` is a byte that was never written
(indeterminate), `some c` holds the `char` value `c`. -/
abbrev Cell := Option Int

/-- The reason a call has no defined behaviour. -/
inductive Fault where
  | null_deref
  | uninit_read
  | invalid_read
  | invalid_write
  | use_after_free
  | signed_overflow
deriving DecidableEq, Repr

/-- The outcome of a call: it returns a value, or its behaviour is undefined. -/
inductive Outcome (α : Type) where
  | returns (a : α)
  | undefined (f : Fault)
deriving DecidableEq, Repr

/-- Sequencing of outcomes: an undefined step makes the whole call undefined. -/
def Outcome.bind {α β : Type} : Outcome α → (α → Outcome β) → Outcome β
  | .returns a, k => k a
  | .undefined f, _ => .undefined f

/-- The value a call returned, when it returned. -/
def Outcome.value {α σ : Type} : Outcome (α × σ) → Option α
  | .returns (a, _) => some a
  | .undefined _ => none

/-- The state a call left behind, when it returned. -/
def Outcome.state {α σ : Type} : Outcome (α × σ) → Option σ
  | .returns (_, s) => some s
  | .undefined _ => none

/-! ## Integer conversions -/

/-- Conversion of an integer to `size_t` (`unsigned long`): reduction modulo `2^64`. -/
def to_size_t (x : Int) : Nat := (x % 2 ^ 64).toNat

/-- Conversion of an `unsigned long` to `long`: the two's complement reading. -/
def to_long (n : Nat) : Int :=
  if n % 2 ^ 64 < 2 ^ 63 then ((n % 2 ^ 64 : Nat) : Int) else ((n % 2 ^ 64 : Nat) : Int) - 2 ^ 64

/-! ## C string functions -/

/-- The `c_str()` of a `std::string`: its characters followed by a NUL. -/
def c_str (content : List Int) : List Int := content ++ [0]

/-- The `strcpy(dst, src)` of the C library, on a NUL-terminated `src`: copies
the characters of `src` up to and including the first NUL into the start of
the block `dst`.  Both calls of the program pass a block with room for the
whole string. -/
def strcpy : List Cell → List Int → List Cell
  | _ :: ds, c :: cs => some c :: (if c = 0 then ds else strcpy ds cs)
  | ds, _ => ds

/-- Writes `n` NUL characters at the start of the block `dst`. -/
def fill_nul : List Cell → Nat → Outcome (List Cell)
  | dst, 0 => .returns dst
  | [], _ + 1 => .undefined .invalid_write
  | _ :: dst, n + 1 => (fill_nul dst n).bind fun r => .returns (some 0 :: r)

/-- The `strncpy(dst, src, n)` of the C library on blocks: copies at most `n`
characters of `src` into the start of `dst`, character by character; once a
NUL has been copied the rest of the `n` characters are written as NUL. -/
def strncpy : List Cell → List Cell → Nat → Outcome (List Cell)
  | dst, _, 0 => .returns dst
  | _, [], _ + 1 => .undefined .invalid_read
  | _, none :: _, _ + 1 => .undefined .uninit_read
  | [], some _ :: _, _ + 1 => .undefined .invalid_write
  | d :: dst, some c :: src, n + 1 =>
      if c = 0 then fill_nul (d :: dst) (n + 1)
      else (strncpy dst src n).bind fun r => .returns (some c :: r)

/-- The store `block[idx] = c`. -/
def store (block : List Cell) (idx : Nat) (c : Int) : Outcome (List Cell) :=
  if idx < block.length then .returns (block.set idx (some c)) else .undefined .invalid_write

/-! ## `DataPacket` -/

/-- The class `DataPacket`: `data` is `none` for a null pointer, else the heap
block it points to. -/
structure DataPacket where
  id : Int
  data_len : Nat
  data : Option (List Cell)
deriving DecidableEq, Repr

/-- The default constructor `DataPacket()`.  It does not initialise
`data_len`; `indeterminate` is the value the field happens to hold. -/
def DataPacket.ctor_default (indeterminate : Nat) : DataPacket :=
  { id := -1, data_len := indeterminate, data := none }

/-- The constructor `DataPacket(int pkt_id, const std::string& content)`. -/
def DataPacket.ctor (pkt_id : Int) (content : List Int) : DataPacket :=
  let data_len := content.length
  let data : List Cell := List.replicate (data_len + 1) none
  { id := pkt_id, data_len := data_len, data := some (strcpy data (c_str content)) }

/-! ## `PacketProcessor` -/

/-- The class `PacketProcessor`.  `m_process_buffer` is the content of the
block the pointer of that name refers to.  Two counters instrument the heap:
`releases` counts the `delete[]` executed on that block (the block is live
while it is 0), `status_live` counts the status packets allocated by
`process_packet` and not deleted. -/
structure PacketProcessor where
  m_process_buffer : List Cell
  m_buffer_capacity : Nat
  releases : Nat
  status_live : Nat
deriving DecidableEq, Repr

/-- The constructor `PacketProcessor(size_t capacity)`. -/
def PacketProcessor.ctor (capacity : Nat) : PacketProcessor :=
  { m_process_buffer := List.replicate capacity none
    m_buffer_capacity := capacity
    releases := 0
    status_live := 0 }

/-- One step `checksum += (pkt->data[i] * (i + 1)) >> (j + 1)`: the `char` is
converted to `size_t`, the product and the sum are taken modulo `2^64`, the
shift is logical, and the sum is converted back to `long`. -/
def checksum_step (c : Int) (i : Nat) (checksum : Int) (j : Nat) : Int :=
  to_long (to_size_t checksum + (((to_size_t c * (i + 1)) % 2 ^ 64) >>> (j + 1)))

/-- The inner loop `for (int j = 0; j < 5; ++j)`. -/
def checksum_inner (c : Int) (i : Nat) (checksum : Int) : Int :=
  (List.range 5).foldl (checksum_step c i) checksum

/-- The outer loop `for (size_t i = 0; i < pkt->data_len; ++i)`, with
`remaining = data_len - i` iterations to go and `cells` the block from index
`i` on. -/
def checksum_outer : List Cell → Nat → Nat → Int → Outcome Int
  | _, 0, _, checksum => .returns checksum
  | [], _ + 1, _, _ => .undefined .invalid_read
  | none :: _, _ + 1, _, _ => .undefined .uninit_read
  | some c :: cells, remaining + 1, i, checksum =>
      checksum_outer cells remaining (i + 1) (checksum_inner c i checksum)

/-- The method `long calculate_checksum(const DataPacket* pkt) const`. -/
def PacketProcessor.calculate_checksum (self : PacketProcessor) (pkt : Option DataPacket) :
    Outcome (Int × PacketProcessor) :=
  match pkt with
  | none => .returns (0, self)
  | some pkt =>
    match pkt.data with
    | none => .returns (0, self)
    | some data =>
      (checksum_outer data pkt.data_len 0 0).bind fun checksum => .returns (checksum, self)

/-- The method `bool process_packet(const DataPacket* pkt)`. -/
def PacketProcessor.process_packet (self : PacketProcessor) (pkt : Option DataPacket) :
    Outcome (Bool × PacketProcessor) :=
  -- DataPacket* status_pkt = new DataPacket(999, "PROCESSING");
  let self := { self with status_live := self.status_live + 1 }
  match pkt with
  | none => .returns (false, self)
  | some pkt =>
    if pkt.id < 0 then .returns (false, self)
    else if pkt.data_len ≥ self.m_buffer_capacity then
      -- delete status_pkt;
      .returns (false, { self with status_live := self.status_live - 1 })
    else if self.releases ≠ 0 then .undefined .use_after_free
    else
      match pkt.data with
      | none => .undefined .null_deref
      | some data =>
        (strncpy self.m_process_buffer data pkt.data_len).bind fun buffer =>
        (store buffer pkt.data_len 0).bind fun buffer =>
        -- delete status_pkt;
        .returns (true, { self with m_process_buffer := buffer
                                    status_live := self.status_live - 1 })

/-- The method `void reset()`: `delete[] m_process_buffer`; the pointer is
left as it is. -/
def PacketProcessor.reset (self : PacketProcessor) : PacketProcessor :=
  { self with releases := self.releases + 1 }

/-- The destructor `~PacketProcessor()`: `delete[] m_process_buffer`. -/
def PacketProcessor.dtor (self : PacketProcessor) : PacketProcessor :=
  { self with releases := self.releases + 1 }

/-- The `data_len` characters that `strncpy` copies out of a packet built by
`DataPacket(id, content)`: the characters of `content` before its first NUL,
then NUL up to the length of `content`. -/
def copied : List Int → List Int
  | [] => []
  | c :: cs => if c = 0 then List.replicate (cs.length + 1) 0 else c :: copied cs

/-- The checksum in the words of the specification: for the byte at position
`i` (0-based) with value `b`, and each shift amount `j` in `1..=5`, the value
`(b * (i + 1)) >> j` (the floor of `b * (i + 1) / 2^j`), summed over all `i`
and `j`. -/
def checksum_spec (payload : List Int) : Int :=
  ∑ i ∈ Finset.range payload.length, ∑ j ∈ Finset.Icc 1 5,
    (payload.getD i 0 * ((i : Int) + 1)) / 2 ^ j

/-- The sum of the specification for a payload whose first byte is at
position `i`. -/
def spec_from (i : Nat) : List Int → Int
  | [] => 0
  | b :: bs => (∑ j ∈ Finset.Icc 1 5, (b * ((i : Int) + 1)) / 2 ^ j) + spec_from (i + 1) bs

/-- The buffer indices that the statements of `process_packet` write: none on
the paths that return before the copy; otherwise
`strncpy(m_process_buffer, pkt->data, pkt->data_len)` writes `data_len`
characters, at the indices below `data_len`, and
`m_process_buffer[pkt->data_len] = '\0'` writes the index `data_len`. -/
def PacketProcessor.process_packet_writes (self : PacketProcessor) (pkt : Option DataPacket) :
    List Nat :=
  match pkt with
  | none => []
  | some pkt =>
    if pkt.id < 0 then []
    else if pkt.data_len ≥ self.m_buffer_capacity then []
    else List.range pkt.data_len ++ [pkt.data_len]

/-! ## Signed arithmetic -/

/-- The result of an operation in `int` (32 bits): a value outside the range
of `int` is a signed overflow. -/
def int_result (x : Int) : Outcome Int :=
  if -2 ^ 31 ≤ x ∧ x < 2 ^ 31 then .returns x else .undefined .signed_overflow

/-- The result of an operation in `long` (64 bits): a value outside the range
of `long` is a signed overflow. -/
def long_result (x : Int) : Outcome Int :=
  if -2 ^ 63 ≤ x ∧ x < 2 ^ 63 then .returns x else .undefined .signed_overflow

/-! ## `processing_worker` -/

/-- The loop `for (int i = 0; i < 50; ++i)` of `processing_worker`, with
`remaining = 50 - i` iterations to go: `g_processed_ids.push_back(start_id + i)`. -/
def processing_worker_loop : Nat → Nat → Int → List Int → Outcome (List Int)
  | 0, _, _, g_processed_ids => .returns g_processed_ids
  | remaining + 1, i, start_id, g_processed_ids =>
      (int_result (start_id + (i : Int))).bind fun v =>
      processing_worker_loop remaining (i + 1) start_id (g_processed_ids ++ [v])

/-- The function `void processing_worker(int start_id)`, run with no other
writer, as a transformer of the global `g_processed_ids`. -/
def processing_worker (start_id : Int) (g_processed_ids : List Int) : Outcome (List Int) :=
  processing_worker_loop 50 0 start_id g_processed_ids

/-! ## `inventory.cpp` -/

/-- The recursion of `generate_validation_code` for a level `n ≥ 0`; the sum
and the product are taken in `long`. -/
def generate_validation_code_nat : Nat → Outcome Int
  | 0 => .returns 1
  | 1 => (generate_validation_code_nat 0).bind fun r => long_result (1 + r)
  | n + 2 =>
    if (n + 2) % 2 = 1 then
      (generate_validation_code_nat (n + 1)).bind fun r => long_result (((n + 2 : Nat) : Int) + r)
    else
      (generate_validation_code_nat n).bind fun r => long_result (((n + 2 : Nat) : Int) * r)

/-- The function `long generate_validation_code(int level)`. -/
def generate_validation_code (level : Int) : Outcome Int :=
  if level ≤ 0 then .returns 1 else generate_validation_code_nat level.toNat

/-- The recursion of `generate_validation_code` for a level `n ≥ 0`, with
`long` read as the unbounded integers. -/
def validation_code_nat : Nat → Int
  | 0 => 1
  | 1 => 1 + validation_code_nat 0
  | n + 2 =>
    if (n + 2) % 2 = 1 then ((n + 2 : Nat) : Int) + validation_code_nat (n + 1)
    else ((n + 2 : Nat) : Int) * validation_code_nat n

/-- The function `generate_validation_code` over unbounded integers: the
function `f` of the specification. -/
def validation_code (level : Int) : Int :=
  if level ≤ 0 then 1 else validation_code_nat level.toNat

/-- The struct `Item`. -/
structure Item where
  id : Int
  name : String
  quantity : Int
deriving DecidableEq, Repr

/-- The loop `for (int i = 0; i <= size; ++i)` of `update_inventory`, with
`remaining = size + 1 - i` iterations to go.  `inventory` holds the items the
array of pointers refers to; an index outside the array is an invalid read. -/
def update_inventory_loop : Nat → Nat → List Item → Int → Outcome (List Item × Int)
  | 0, _, inventory, g_items_updated => .returns (inventory, g_items_updated)
  | remaining + 1, i, inventory, g_items_updated =>
    match inventory[i]? with
    | none => .undefined .invalid_read
    | some item =>
      -- if (inventory[i]->id == 103) inventory[i]->quantity -= 5;
      (if item.id = 103 then int_result (item.quantity - 5) else .returns item.quantity).bind
        fun quantity =>
      -- inventory[i]->quantity++;
      (int_result (quantity + 1)).bind fun quantity =>
      -- g_items_updated++;
      (int_result (g_items_updated + 1)).bind fun g_items_updated =>
      update_inventory_loop remaining (i + 1)
        (inventory.set i { item with quantity := quantity }) g_items_updated

/-- The function `void update_inventory(Item** inventory, int size)`, as a
transformer of the items and of the global `g_items_updated`. -/
def update_inventory (inventory : List Item) (size : Int) (g_items_updated : Int) :
    Outcome (List Item × Int) :=
  update_inventory_loop (size + 1).toNat 0 inventory g_items_updated

/-- The inventory that `main` of `inventory.cpp` builds (`INVENTORY_SIZE = 5`). -/
def stock : List Item :=
  [ { id := 101, name := "Flux Capacitor", quantity := 10 },
    { id := 102, name := "Fusion Reactor", quantity := 5 },
    { id := 103, name := "Plutonium Rod", quantity := 20 },
    { id := 104, name := "Hoverboard", quantity := 8 },
    { id := 105, name := "Time Circuit", quantity := 15 } ]

/-! ## Lemmas on the string functions -/

theorem copied_length (content : List Int) : (copied content).length = content.length := by
  induction content with
  | nil => rfl
  | cons c cs ih =>
    by_cases hc : c = 0
    · simp [copied, hc]
    · simp [copied, hc, ih]

theorem copied_eq_self (content : List Int) (h : (0 : Int) ∉ content) : copied content = content := by
  induction content with
  | nil => rfl
  | cons c cs ih =>
    have hc : c ≠ 0 := fun e => h (by simp [e])
    have hcs : (0 : Int) ∉ cs := fun e => h (List.mem_cons_of_mem _ e)
    simp [copied, hc, ih hcs]

theorem copied_eq_takeWhile (content : List Int) :
    copied content = content.takeWhile (fun c => decide (c ≠ 0)) ++
      List.replicate (content.length - (content.takeWhile (fun c => decide (c ≠ 0))).length) 0 := by
  induction content with
  | nil => rfl
  | cons c cs ih =>
    by_cases hc : c = 0
    · simp [copied, hc]
    · simp only [copied, hc, if_false]
      rw [List.takeWhile_cons_of_pos (by simpa using hc)]
      simp only [List.length_cons, List.cons_append, Nat.add_sub_add_right]
      rw [← ih]

theorem fill_nul_eq (n : Nat) (dst : List Cell) (h : n ≤ dst.length) :
    fill_nul dst n = .returns (List.replicate n (some 0) ++ dst.drop n) := by
  induction n generalizing dst with
  | zero => cases dst <;> rfl
  | succ n ih =>
    cases dst with
    | nil => simp at h
    | cons d ds =>
      have h2 : n ≤ ds.length := by simpa using h
      simp [fill_nul, ih ds h2, Outcome.bind, List.replicate_succ]

theorem strncpy_ctor (content : List Int) (dst : List Cell) (h : content.length ≤ dst.length) :
    strncpy dst (strcpy (List.replicate (content.length + 1) none) (c_str content)) content.length
      = .returns ((copied content).map some ++ dst.drop content.length) := by
  induction content generalizing dst with
  | nil => cases dst <;> simp [strncpy, copied]
  | cons c cs ih =>
    cases dst with
    | nil => simp at h
    | cons d ds =>
      have h2 : cs.length ≤ ds.length := by simpa using h
      by_cases hc : c = 0
      · subst hc
        have h3 : cs.length + 1 ≤ (d :: ds).length := by simpa using h
        simp only [List.length_cons, List.replicate_succ, c_str, List.cons_append, strcpy,
          if_true, strncpy, copied]
        rw [fill_nul_eq _ _ h3]
        simp [List.replicate_succ]
      · have ih2 := ih ds h2
        simp only [c_str] at ih2
        simp only [List.length_cons, c_str, List.cons_append, strcpy, hc, if_false, strncpy, copied]
        have e : cs.append [0] = cs ++ [0] := rfl
        rw [e, ih2]
        simp [Outcome.bind]

theorem store_after_copy (content : List Int) (dst : List Cell) (h : content.length < dst.length) :
    store ((copied content).map some ++ dst.drop content.length) content.length 0
      = .returns ((copied content).map some ++ some 0 :: dst.drop (content.length + 1)) := by
  have hlen : ((copied content).map some).length = content.length := by
    simp [copied_length]
  have hlt : content.length <
      ((copied content).map some ++ dst.drop content.length).length := by
    rw [List.length_append, hlen, List.length_drop]; omega
  unfold store
  rw [if_pos hlt]
  congr 1
  rw [List.set_append_right _ _ (by rw [hlen]), hlen, Nat.sub_self]
  congr 1
  rw [List.drop_eq_getElem_cons h]
  rfl

/-- What `process_packet` does with a packet built by `DataPacket(id, content)`
that passes both checks, on a processor whose buffer is live. -/
theorem process_packet_ctor (self : PacketProcessor) (pkt_id : Int) (content : List Int)
    (hid : 0 ≤ pkt_id) (hfit : content.length < self.m_buffer_capacity)
    (hlive : self.releases = 0) (hcap : self.m_process_buffer.length = self.m_buffer_capacity) :
    self.process_packet (some (DataPacket.ctor pkt_id content)) =
      .returns (true, { self with
        m_process_buffer :=
          (copied content).map some ++ some 0 :: self.m_process_buffer.drop (content.length + 1) }) := by
  have h1 : ¬ pkt_id < 0 := by omega
  have h2 : ¬ content.length ≥ self.m_buffer_capacity := by omega
  have h3 : content.length ≤ self.m_process_buffer.length := by omega
  have h4 : content.length < self.m_process_buffer.length := by omega
  simp only [PacketProcessor.process_packet, DataPacket.ctor, h1, h2, hlive, if_false, ne_eq,
    not_true_eq_false]
  rw [strncpy_ctor content _ h3]
  simp only [Outcome.bind]
  rw [store_after_copy content _ h4]
  simp

/-- What `process_packet` does with a packet that fails the capacity check. -/
theorem process_packet_too_long (self : PacketProcessor) (pkt : DataPacket)
    (hid : 0 ≤ pkt.id) (hlong : self.m_buffer_capacity ≤ pkt.data_len) :
    self.process_packet (some pkt) = .returns (false, self) := by
  have h1 : ¬ pkt.id < 0 := by omega
  simp [PacketProcessor.process_packet, h1, hlong]

theorem copied_getElem?_lt (content : List Int) (i : Nat)
    (h : i < (content.takeWhile (· ≠ 0)).length) : (copied content)[i]? = content[i]? := by
  induction content generalizing i with
  | nil => rfl
  | cons c cs ih =>
    by_cases hc : c = 0
    · simp [hc] at h
    · rw [List.takeWhile_cons_of_pos (by simpa using hc)] at h
      simp only [copied, hc, if_false]
      cases i with
      | zero => simp
      | succ i =>
        simp only [List.getElem?_cons_succ]
        exact ih i (by simpa using h)

theorem copied_getElem?_ge (content : List Int) (i : Nat)
    (h1 : (content.takeWhile (· ≠ 0)).length ≤ i) (h2 : i < content.length) :
    (copied content)[i]? = some 0 := by
  induction content generalizing i with
  | nil => simp at h2
  | cons c cs ih =>
    by_cases hc : c = 0
    · simp only [copied, hc, if_true]
      rw [List.getElem?_replicate]
      simp only [List.length_cons] at h2
      simp [h2]
    · rw [List.takeWhile_cons_of_pos (by simpa using hc)] at h1
      simp only [copied, hc, if_false]
      cases i with
      | zero => simp at h1
      | succ i =>
        simp only [List.getElem?_cons_succ]
        exact ih i (by simpa using h1) (by simpa using h2)

/-- Reading the buffer left by a successful copy below the terminator. -/
theorem buffer_getElem?_lt (content : List Int) (rest : List Cell) (i : Nat)
    (h : i < content.length) :
    ((copied content).map some ++ some 0 :: rest)[i]? = (copied content)[i]?.map some := by
  rw [List.getElem?_append_left (by simpa [copied_length] using h), List.getElem?_map]

/-- Reading the terminator of the buffer left by a successful copy. -/
theorem buffer_getElem?_terminator (content : List Int) (rest : List Cell) :
    ((copied content).map some ++ some 0 :: rest)[content.length]? = some (some 0) := by
  rw [List.getElem?_append_right (by simp [copied_length])]
  simp [copied_length]

/-! ## Lemmas on the checksum -/

theorem to_size_t_natCast (n : Nat) (h : n < 2 ^ 64) : to_size_t (n : Int) = n := by
  unfold to_size_t
  omega

theorem to_long_small (n : Nat) (h : n < 2 ^ 63) : to_long n = (n : Int) := by
  unfold to_long
  have : n % 2 ^ 64 = n := Nat.mod_eq_of_lt (by omega)
  rw [this, if_pos h]

theorem step_exact (c a i j : Nat) (h1 : c * (i + 1) < 2 ^ 64)
    (h2 : a + c * (i + 1) / 2 ^ (j + 1) < 2 ^ 63) (hc : c < 2 ^ 64) :
    checksum_step (c : Int) i (a : Int) j = ((a + c * (i + 1) / 2 ^ (j + 1) : Nat) : Int) := by
  unfold checksum_step
  have ha : a < 2 ^ 64 := lt_of_le_of_lt (Nat.le_add_right a _) (lt_trans h2 (by norm_num))
  rw [to_size_t_natCast c hc, to_size_t_natCast a ha, Nat.mod_eq_of_lt h1,
    Nat.shiftRight_eq_div_pow, to_long_small _ h2]

/-- The five shifted values of `x` add up to at most `x`. -/
theorem shifts_le (x : Nat) : x / 2 ^ 1 + x / 2 ^ 2 + x / 2 ^ 3 + x / 2 ^ 4 + x / 2 ^ 5 ≤ x := by
  norm_num
  omega

theorem inner_exact (c a i : Nat) (h : a + c * (i + 1) < 2 ^ 63) (hc : c < 2 ^ 64) :
    checksum_inner (c : Int) i (a : Int) =
      ((a + (c * (i + 1) / 2 ^ 1 + c * (i + 1) / 2 ^ 2 + c * (i + 1) / 2 ^ 3 +
        c * (i + 1) / 2 ^ 4 + c * (i + 1) / 2 ^ 5) : Nat) : Int) := by
  have hs := shifts_le (c * (i + 1))
  have h1 : c * (i + 1) < 2 ^ 64 := by omega
  have e : List.range 5 = [0, 1, 2, 3, 4] := by decide
  unfold checksum_inner
  rw [e]
  simp only [List.foldl_cons, List.foldl_nil]
  rw [step_exact c a i 0 h1 (by omega) hc]
  rw [step_exact c _ i 1 h1 (by omega) hc]
  rw [step_exact c _ i 2 h1 (by omega) hc]
  rw [step_exact c _ i 3 h1 (by omega) hc]
  rw [step_exact c _ i 4 h1 (by omega) hc]
  congr 1
  omega

theorem spec_from_eq (bs : List Int) (i : Nat) :
    spec_from i bs = ∑ k ∈ Finset.range bs.length, ∑ j ∈ Finset.Icc 1 5,
      (bs.getD k 0 * (((i + k : Nat) : Int) + 1)) / 2 ^ j := by
  induction bs generalizing i with
  | nil => simp [spec_from]
  | cons b bs ih =>
    rw [spec_from, ih (i + 1), List.length_cons, Finset.sum_range_succ']
    rw [add_comm]
    congr 1
    · apply Finset.sum_congr rfl
      intro k _
      apply Finset.sum_congr rfl
      intro j _
      rw [List.getD_cons_succ, show i + 1 + k = i + (k + 1) by omega]

theorem checksum_spec_eq (payload : List Int) : checksum_spec payload = spec_from 0 payload := by
  rw [spec_from_eq]
  unfold checksum_spec
  apply Finset.sum_congr rfl
  intro k _
  rw [Nat.zero_add]

theorem shifts_cast (c i : Nat) :
    ((c * (i + 1) / 2 ^ 1 + c * (i + 1) / 2 ^ 2 + c * (i + 1) / 2 ^ 3 +
        c * (i + 1) / 2 ^ 4 + c * (i + 1) / 2 ^ 5 : Nat) : Int) =
      ∑ j ∈ Finset.Icc 1 5, ((c : Int) * ((i : Int) + 1)) / 2 ^ j := by
  have e : Finset.Icc 1 5 = ({1, 2, 3, 4, 5} : Finset Nat) := by decide
  rw [e, Finset.sum_insert (by decide), Finset.sum_insert (by decide),
    Finset.sum_insert (by decide), Finset.sum_insert (by decide), Finset.sum_singleton]
  push_cast
  ring

theorem outer_exact (bs : List Int) (rest : List Cell) (i a : Nat)
    (hb : ∀ b ∈ bs, 0 ≤ b ∧ b ≤ 127) (hbound : a + 127 * bs.length * (i + bs.length) < 2 ^ 63) :
    checksum_outer (bs.map some ++ rest) bs.length i (a : Int)
      = .returns ((a : Int) + spec_from i bs) := by
  induction bs generalizing i a with
  | nil => simp [checksum_outer, spec_from]
  | cons b bs ih =>
    obtain ⟨hb0, hb1⟩ := hb b (by simp)
    obtain ⟨c, rfl⟩ := Int.eq_ofNat_of_zero_le hb0
    have hc : c ≤ 127 := by omega
    simp only [List.length_cons] at hbound
    have hci : c * (i + 1) ≤ 127 * (i + 1) := Nat.mul_le_mul_right _ hc
    have hexp : 127 * (bs.length + 1) * (i + (bs.length + 1))
        = 127 * (i + 1) + 127 * bs.length * (i + 1 + bs.length) + 127 * bs.length := by ring
    have hs := shifts_le (c * (i + 1))
    simp only [List.map_cons, List.cons_append, List.length_cons, checksum_outer]
    rw [inner_exact c a i (by omega) (by omega)]
    have e : (List.map some bs).append rest = List.map some bs ++ rest := rfl
    rw [e, ih (i + 1) (a + (c * (i + 1) / 2 ^ 1 + c * (i + 1) / 2 ^ 2 + c * (i + 1) / 2 ^ 3 +
        c * (i + 1) / 2 ^ 4 + c * (i + 1) / 2 ^ 5))
      (fun x hx => hb x (List.mem_cons_of_mem _ hx)) (by omega)]
    rw [spec_from, ← shifts_cast]
    push_cast
    congr 1
    ring

theorem checksum_outer_take (cells : List Cell) (n i : Nat) (checksum : Int) :
    checksum_outer cells n i checksum = checksum_outer (cells.take n) n i checksum := by
  induction n generalizing cells i checksum with
  | zero => simp [checksum_outer]
  | succ n ih =>
    cases cells with
    | nil => simp [checksum_outer]
    | cons d ds =>
      cases d with
      | none => simp [checksum_outer]
      | some c =>
        simp only [List.take_succ_cons, checksum_outer]
        exact ih ds (i + 1) _

/-! ## Lemmas on the constructor and the write footprint -/

/-- The block a packet built from `content` owns: the bytes before the first
zero byte, a zero byte, and bytes that were never written. -/
theorem strcpy_c_str (content : List Int) :
    strcpy (List.replicate (content.length + 1) none) (c_str content) =
      (content.takeWhile (· ≠ 0)).map some ++
        some 0 :: List.replicate (content.length - (content.takeWhile (· ≠ 0)).length) none := by
  induction content with
  | nil => rfl
  | cons c cs ih =>
    by_cases hc : c = 0
    · subst hc
      simp [c_str, strcpy, List.replicate_succ]
    · have ih2 := ih
      simp only [c_str] at ih2
      rw [List.takeWhile_cons_of_pos (by simpa using hc)]
      simp only [List.length_cons, c_str, List.cons_append, List.map_cons,
        Nat.add_sub_add_right]
      rw [List.replicate_succ]
      simp only [strcpy, hc, if_false]
      rw [ih2]

theorem strncpy_in_bounds (n : Nat) (dst src : List Cell) (h : n ≤ dst.length) :
    strncpy dst src n ≠ .undefined .invalid_write ∧
      ∀ r, strncpy dst src n = .returns r → r.length = dst.length := by
  induction n generalizing dst src with
  | zero =>
    refine ⟨by simp [strncpy], ?_⟩
    intro r hr
    simp only [strncpy, Outcome.returns.injEq] at hr
    rw [← hr]
  | succ n ih =>
    cases src with
    | nil => simp [strncpy]
    | cons c src =>
      cases c with
      | none => simp [strncpy]
      | some c =>
        cases dst with
        | nil => simp at h
        | cons d ds =>
          have h2 : n ≤ ds.length := by simpa using h
          by_cases hc : c = 0
          · simp only [strncpy, hc, if_true]
            rw [fill_nul_eq _ _ h]
            refine ⟨by simp, ?_⟩
            intro r hr
            simp only [Outcome.returns.injEq] at hr
            rw [← hr]
            simp only [List.length_append, List.length_replicate, List.length_drop]
            omega
          · simp only [strncpy, hc, if_false]
            obtain ⟨ih1, ih2⟩ := ih ds src h2
            cases hs : strncpy ds src n with
            | undefined f =>
              rw [hs] at ih1
              refine ⟨?_, ?_⟩
              · simpa [Outcome.bind] using ih1
              · intro r hr
                simp [Outcome.bind] at hr
            | returns r0 =>
              refine ⟨by simp [Outcome.bind], ?_⟩
              intro r hr
              simp only [Outcome.bind, Outcome.returns.injEq] at hr
              rw [← hr, List.length_cons, ih2 r0 hs, List.length_cons]

/-! ## Lemmas on the worker and the validation code -/

theorem int_result_in_range (x : Int) (h1 : -2 ^ 31 ≤ x) (h2 : x < 2 ^ 31) :
    int_result x = .returns x := by
  unfold int_result
  rw [if_pos ⟨h1, h2⟩]

theorem processing_worker_loop_eq (remaining i : Nat) (start_id : Int) (log : List Int)
    (h1 : -2 ^ 31 ≤ start_id) (h2 : start_id + ((i + remaining : Nat) : Int) ≤ 2 ^ 31) :
    processing_worker_loop remaining i start_id log =
      .returns (log ++ (List.range remaining).map fun k => start_id + ((i + k : Nat) : Int)) := by
  induction remaining generalizing i log with
  | zero => simp [processing_worker_loop]
  | succ r ih =>
    have hv : int_result (start_id + (i : Int)) = .returns (start_id + (i : Int)) := by
      apply int_result_in_range
      · omega
      · push_cast at h2; omega
    simp only [processing_worker_loop, hv, Outcome.bind]
    rw [ih (i + 1) _ (by push_cast at h2 ⊢; omega)]
    congr 1
    rw [List.range_succ_eq_map, List.map_cons, List.map_map, List.append_assoc]
    congr 1
    rw [List.singleton_append, Nat.add_zero]
    congr 1
    apply List.map_congr_left
    intro k _
    simp only [Function.comp_apply]
    congr 2
    omega

theorem long_result_returns (x v : Int) (h : long_result x = .returns v) : v = x := by
  unfold long_result at h
  split at h
  · simp only [Outcome.returns.injEq] at h
    exact h.symm
  · cases h

/-- Whenever the recursion in `long` returns, it returns the value of the
recursion over unbounded integers. -/
theorem generate_validation_code_nat_sound :
    ∀ (n : Nat) (v : Int), generate_validation_code_nat n = .returns v → v = validation_code_nat n
  | 0, v, h => by
    simp only [generate_validation_code_nat, Outcome.returns.injEq] at h
    simp [validation_code_nat, h]
  | 1, v, h => by
    simp only [generate_validation_code_nat, Outcome.bind] at h
    rw [long_result_returns _ _ h]
    simp [validation_code_nat]
  | n + 2, v, h => by
    unfold generate_validation_code_nat at h
    unfold validation_code_nat
    split at h
    · rename_i hodd
      rw [if_pos hodd]
      cases hr : generate_validation_code_nat (n + 1) with
      | undefined f => rw [hr] at h; cases h
      | returns r =>
        rw [hr] at h
        simp only [Outcome.bind] at h
        rw [long_result_returns _ _ h, generate_validation_code_nat_sound (n + 1) r hr]
    · rename_i hodd
      rw [if_neg hodd]
      cases hr : generate_validation_code_nat n with
      | undefined f => rw [hr] at h; cases h
      | returns r =>
        rw [hr] at h
        simp only [Outcome.bind] at h
        rw [long_result_returns _ _ h, generate_validation_code_nat_sound n r hr]

theorem validation_code_natCast (n : Nat) : validation_code (n : Int) = validation_code_nat n := by
  unfold validation_code
  cases n with
  | zero => simp [validation_code_nat]
  | succ n =>
    have : ¬ (((n + 1 : Nat) : Int) ≤ 0) := by omega
    rw [if_neg this, Int.toNat_ofNat]

theorem generate_validation_code_natCast (n : Nat) :
    generate_validation_code (n : Int) = generate_validation_code_nat n := by
  unfold generate_validation_code
  cases n with
  | zero => simp [generate_validation_code_nat]
  | succ n =>
    have : ¬ (((n + 1 : Nat) : Int) ≤ 0) := by omega
    rw [if_neg this, Int.toNat_ofNat]

set_option maxRecDepth 100000 in
theorem generate_validation_code_nat_le_33 :
    ∀ n, n ≤ 33 → generate_validation_code_nat n = .returns (validation_code_nat n) := by
  decide

theorem validation_code_nat_even (k : Nat) :
    validation_code_nat (2 * k) = 2 ^ k * (k.factorial : Int) := by
  induction k with
  | zero => simp [validation_code_nat]
  | succ k ih =>
    have e : 2 * (k + 1) = 2 * k + 2 := by ring
    rw [e, validation_code_nat, if_neg (by omega), ih, pow_succ, Nat.factorial_succ]
    push_cast
    ring

theorem validation_code_nat_odd (k : Nat) :
    validation_code_nat (2 * k + 1) = (2 * (k : Int) + 1) + 2 ^ k * (k.factorial : Int) := by
  cases k with
  | zero => simp [validation_code_nat]
  | succ k =>
    have e : 2 * (k + 1) + 1 = (2 * k + 1) + 2 := by ring
    have e2 : 2 * k + 1 + 1 = 2 * (k + 1) := by ring
    rw [e, validation_code_nat, if_pos (by omega), e2, validation_code_nat_even]
    push_cast
    ring

theorem validation_code_nat_pos (n : Nat) : 1 ≤ validation_code_nat n := by
  rcases Nat.even_or_odd' n with ⟨k, rfl | rfl⟩
  · rw [validation_code_nat_even]
    have : (0 : Int) < 2 ^ k * (k.factorial : Int) := by positivity
    omega
  · rw [validation_code_nat_odd]
    have : (0 : Int) < 2 ^ k * (k.factorial : Int) := by positivity
    omega

theorem validation_code_odd_step (level : Int) (hpos : 0 < level) (hodd : level % 2 = 1) :
    validation_code level = level + validation_code (level - 1) := by
  obtain ⟨n, rfl⟩ := Int.eq_ofNat_of_zero_le (le_of_lt hpos)
  match n, hpos, hodd with
  | 1, _, _ =>
    rw [validation_code_natCast]
    simp [validation_code, validation_code_nat]
  | m + 2, _, hodd =>
    have e : ((m + 2 : Nat) : Int) - 1 = ((m + 1 : Nat) : Int) := by push_cast; ring
    have hm : (m + 2) % 2 = 1 := by omega
    rw [e, validation_code_natCast, validation_code_natCast, validation_code_nat, if_pos hm]

theorem validation_code_even_step (level : Int) (hpos : 0 < level) (heven : level % 2 = 0) :
    validation_code level = level * validation_code (level - 2) := by
  obtain ⟨n, rfl⟩ := Int.eq_ofNat_of_zero_le (le_of_lt hpos)
  match n, hpos, heven with
  | 1, _, heven => omega
  | m + 2, _, heven =>
    have e : ((m + 2 : Nat) : Int) - 2 = (m : Int) := by push_cast; ring
    have hm : ¬ (m + 2) % 2 = 1 := by omega
    rw [e, validation_code_natCast, validation_code_natCast, validation_code_nat, if_neg hm]

/-! ## The claims -/

/-- C1: for every capacity `C ≥ 1` and every packet built by
`DataPacket(id, content)` with `id ≥ 0` (a present packet with a non-negative
id; the default constructor gives id `-1`) and payload length `L`,
`process_packet` on a freshly constructed processor of capacity `C` returns,
and it returns success if and only if `L ≤ C - 1`; otherwise it returns
failure. -/
theorem C1_process_packet_success_iff (C : Nat) (pkt_id : Int) (content : List Int)
    (hC : 1 ≤ C) (hid : 0 ≤ pkt_id) :
    (((PacketProcessor.ctor C).process_packet (some (DataPacket.ctor pkt_id content))).value
        = some true ↔ content.length ≤ C - 1) ∧
    (((PacketProcessor.ctor C).process_packet (some (DataPacket.ctor pkt_id content))).value
        = some false ↔ ¬ content.length ≤ C - 1) := by
  by_cases hfit : content.length ≤ C - 1
  · have hlt : content.length < (PacketProcessor.ctor C).m_buffer_capacity := by
      simp only [PacketProcessor.ctor]; omega
    rw [process_packet_ctor _ pkt_id content hid hlt rfl (by simp [PacketProcessor.ctor])]
    simp [Outcome.value, hfit]
  · have hlong : (PacketProcessor.ctor C).m_buffer_capacity ≤ (DataPacket.ctor pkt_id content).data_len := by
      simp only [PacketProcessor.ctor, DataPacket.ctor]; omega
    rw [process_packet_too_long _ _ hid hlong]
    simp [Outcome.value, hfit]

/-- C1 at the scenarios of the specification, on the processor of capacity 100:
the packet of `main` with id 2 and a payload of 100 bytes `B` fails, the packet
with id 3 and a payload of 99 bytes `C` succeeds. -/
theorem C1_process_packet_success_iff_witness :
    (1 ≤ 100 ∧ (0 : Int) ≤ 2 ∧ (0 : Int) ≤ 3) ∧
    ((((PacketProcessor.ctor 100).process_packet
        (some (DataPacket.ctor 2 (List.replicate 100 66)))).value = some true
        ↔ (List.replicate 100 (66 : Int)).length ≤ 100 - 1) ∧
     (((PacketProcessor.ctor 100).process_packet
        (some (DataPacket.ctor 2 (List.replicate 100 66)))).value = some false
        ↔ ¬ (List.replicate 100 (66 : Int)).length ≤ 100 - 1)) ∧
    ((((PacketProcessor.ctor 100).process_packet
        (some (DataPacket.ctor 3 (List.replicate 99 67)))).value = some true
        ↔ (List.replicate 99 (67 : Int)).length ≤ 100 - 1) ∧
     (((PacketProcessor.ctor 100).process_packet
        (some (DataPacket.ctor 3 (List.replicate 99 67)))).value = some false
        ↔ ¬ (List.replicate 99 (67 : Int)).length ≤ 100 - 1)) :=
  ⟨⟨by decide, by decide, by decide⟩,
   C1_process_packet_success_iff 100 2 (List.replicate 100 66) (by decide) (by decide),
   C1_process_packet_success_iff 100 3 (List.replicate 99 67) (by decide) (by decide)⟩

/-- C2, the code at the failing input: the packet `DataPacket(1, "a\0b")`
(length 3, id 1) fits a processor of capacity 100 and `process_packet` returns
success, but the buffer byte at index 2 is then 0 while the content byte at
index 2 is 98 (`b`).  The constructor copies with `strcpy` and `process_packet`
with `strncpy`, which both stop at the first zero byte, although `data_len`
counts all three bytes. -/
theorem C2_zero_byte_payload_truncated :
    ∃ s', (PacketProcessor.ctor 100).process_packet (some (DataPacket.ctor 1 [97, 0, 98]))
        = .returns (true, s') ∧
      s'.m_process_buffer[2]? = some (some 0) ∧ ([97, 0, 98] : List Int)[2]? = some 98 :=
  ⟨_, process_packet_ctor (PacketProcessor.ctor 100) 1 [97, 0, 98] (by decide) (by decide) rfl
        (by decide), by decide, by decide⟩

/-- Outside the defect the copy is as the specification says: for content
without a zero byte, on a processor with a live buffer that the packet fits,
`process_packet` returns success, `buffer[i] = content[i]` for every `i` in
`[0, L)` and `buffer[L]` is the terminator 0. -/
theorem process_packet_zero_free (self : PacketProcessor) (pkt_id : Int) (content : List Int)
    (hlive : self.releases = 0) (hcap : self.m_process_buffer.length = self.m_buffer_capacity)
    (hid : 0 ≤ pkt_id) (hfit : content.length < self.m_buffer_capacity)
    (hz : (0 : Int) ∉ content) :
    ∃ s', self.process_packet (some (DataPacket.ctor pkt_id content)) = .returns (true, s') ∧
      (∀ i, i < content.length → s'.m_process_buffer[i]? = content[i]?.map some) ∧
      s'.m_process_buffer[content.length]? = some (some 0) := by
  refine ⟨_, process_packet_ctor self pkt_id content hid hfit hlive hcap, ?_,
    buffer_getElem?_terminator content _⟩
  intro i hi
  show ((copied content).map some ++ some 0 :: _)[i]? = _
  rw [buffer_getElem?_lt content _ i hi, copied_eq_self content hz]

/-- C3, the code at the failing input: after `reset()` a processor of capacity
20 is given the valid packet `DataPacket(1, "hi")`, which fits.  No check of
`process_packet` looks at the released buffer: both checks pass and the copy
goes through the dangling pointer, so the call does not return failure. -/
theorem C3_process_after_reset_not_failure :
    (PacketProcessor.ctor 20).reset.process_packet (some (DataPacket.ctor 1 [104, 105]))
        = .undefined .use_after_free ∧
      ((PacketProcessor.ctor 20).reset.process_packet (some (DataPacket.ctor 1 [104, 105]))).value
        ≠ some false := by
  decide

/-- C4: for every processor state and every packet (absent or present), if
`process_packet` returns failure then the buffer after the call equals the
buffer before the call. -/
theorem C4_failure_leaves_buffer (self : PacketProcessor) (pkt : Option DataPacket)
    (s' : PacketProcessor) (hfail : self.process_packet pkt = .returns (false, s')) :
    s'.m_process_buffer = self.m_process_buffer := by
  unfold PacketProcessor.process_packet at hfail
  cases pkt with
  | none =>
    simp only [Outcome.returns.injEq, Prod.mk.injEq, true_and] at hfail
    rw [← hfail]
  | some k =>
    simp only at hfail
    split at hfail
    · simp only [Outcome.returns.injEq, Prod.mk.injEq, true_and] at hfail
      rw [← hfail]
    · split at hfail
      · simp only [Outcome.returns.injEq, Prod.mk.injEq, true_and] at hfail
        rw [← hfail]
      · split at hfail
        · cases hfail
        · split at hfail
          · cases hfail
          · rename_i data hdata
            cases h1 : strncpy self.m_process_buffer data k.data_len with
            | undefined f => rw [h1] at hfail; cases hfail
            | returns b1 =>
              rw [h1] at hfail
              simp only [Outcome.bind] at hfail
              cases h2 : store b1 k.data_len 0 with
              | undefined f => rw [h2] at hfail; cases hfail
              | returns b2 =>
                rw [h2] at hfail
                simp [Outcome.bind] at hfail

/-- C4 at a packet that is too long: capacity 4, a payload of 4 bytes, after an
earlier successful call that filled the buffer. -/
theorem C4_failure_leaves_buffer_witness :
    ({ m_process_buffer := [some 97, some 98, some 0, none], m_buffer_capacity := 4,
       releases := 0, status_live := 0 } : PacketProcessor).process_packet
        (some (DataPacket.ctor 2 [66, 66, 66, 66]))
      = .returns (false, { m_process_buffer := [some 97, some 98, some 0, none],
                           m_buffer_capacity := 4, releases := 0, status_live := 0 }) ∧
    ({ m_process_buffer := [some 97, some 98, some 0, none], m_buffer_capacity := 4,
       releases := 0, status_live := 0 } : PacketProcessor).m_process_buffer
      = [some 97, some 98, some 0, none] :=
  ⟨by decide,
   C4_failure_leaves_buffer
     { m_process_buffer := [some 97, some 98, some 0, none], m_buffer_capacity := 4,
       releases := 0, status_live := 0 }
     (some (DataPacket.ctor 2 [66, 66, 66, 66]))
     { m_process_buffer := [some 97, some 98, some 0, none], m_buffer_capacity := 4,
       releases := 0, status_live := 0 }
     (by decide)⟩

/-- C5: `process_packet` returns failure whenever the packet is absent or its
id is negative, for every processor (every capacity) and whatever the other
fields of the packet hold. -/
theorem C5_invalid_packet_fails (self : PacketProcessor) (pkt : Option DataPacket)
    (hinvalid : pkt = none ∨ ∃ k, pkt = some k ∧ k.id < 0) :
    (self.process_packet pkt).value = some false := by
  rcases hinvalid with h | ⟨k, h, hk⟩
  · subst h
    rfl
  · subst h
    simp [PacketProcessor.process_packet, hk, Outcome.value]

/-- C5 at the calls of `main`: `process_packet(nullptr)` on the processor of
capacity 50, and `process_packet(&placeholder_pkt)` on the processor of
capacity 100, whatever value the uninitialised `data_len` holds (here 7). -/
theorem C5_invalid_packet_fails_witness :
    ((none : Option DataPacket) = none ∨ ∃ k, (none : Option DataPacket) = some k ∧ k.id < 0) ∧
    ((PacketProcessor.ctor 50).process_packet none).value = some false ∧
    ((PacketProcessor.ctor 100).process_packet (some (DataPacket.ctor_default 7))).value
      = some false :=
  ⟨Or.inl rfl,
   C5_invalid_packet_fails (PacketProcessor.ctor 50) none (Or.inl rfl),
   C5_invalid_packet_fails (PacketProcessor.ctor 100) (some (DataPacket.ctor_default 7))
     (Or.inr ⟨DataPacket.ctor_default 7, rfl, by decide⟩)⟩

/-- C6, the code at the failing input: `reset()` executes `delete[]` on the
buffer at every call.  Two calls in a row on a processor of capacity 20 execute
it twice on the same block (a double free) and leave a state that differs from
the state after one call. -/
theorem C6_reset_twice_releases_twice :
    (PacketProcessor.ctor 20).reset.releases = 1 ∧
      (PacketProcessor.ctor 20).reset.reset.releases = 2 ∧
      (PacketProcessor.ctor 20).reset.reset ≠ (PacketProcessor.ctor 20).reset := by
  decide

/-- C7, the code at the failing input: `fragile_processor(20)` is reset and then
destroyed at the end of `main`; the destructor executes `delete[]` on the
buffer that `reset()` has already released, so the block is released twice. -/
theorem C7_reset_then_destroy_releases_twice :
    (PacketProcessor.ctor 20).reset.releases = 1 ∧
      (PacketProcessor.ctor 20).reset.dtor.releases = 2 := by
  decide

set_option maxRecDepth 100000 in
/-- C8, refuted as stated: for the packet `DataPacket(7, "\xff")`, whose one
payload byte is `-1` as a `char` (255 as an unsigned byte), `calculate_checksum`
returns `-576460752303423493`: the `char` is converted to `size_t` before the
multiplication, the shifts are taken on `2^64 - 1`, and the sum wraps into
`long`.  The sum of the claim is `-5` for the byte value `-1` and `243` for the
byte value `255`. -/
theorem C8_signed_char_counterexample :
    ((PacketProcessor.ctor 50).calculate_checksum (some (DataPacket.ctor 7 [-1]))).value
        = some (-576460752303423493) ∧
      checksum_spec [-1] = -5 ∧ checksum_spec [255] = 243 := by
  decide

/-- C8, amended: for every packet with a present payload of length
`L ≤ 2^28` whose bytes are initialised and have `char` values `b_0..b_{L-1}` in
`0..127`, `calculate_checksum` returns the sum over all `i` in `[0, L)` and all
`j` in `1..5` of `(b_i * (i + 1)) >> j`, the floor of `b_i * (i + 1) / 2^j`, and
leaves the processor as it was. -/
theorem C8_checksum_sum (self : PacketProcessor) (pkt : DataPacket) (payload : List Int)
    (rest : List Cell) (hdata : pkt.data = some (payload.map some ++ rest))
    (hlen : pkt.data_len = payload.length) (hbytes : ∀ b ∈ payload, 0 ≤ b ∧ b ≤ 127)
    (hL : payload.length ≤ 2 ^ 28) :
    self.calculate_checksum (some pkt) = .returns (checksum_spec payload, self) := by
  have hbound : 0 + 127 * payload.length * (0 + payload.length) < 2 ^ 63 := by
    have h1 : payload.length * payload.length ≤ 2 ^ 28 * 2 ^ 28 := Nat.mul_le_mul hL hL
    have h2 : 127 * payload.length * (0 + payload.length)
        = 127 * (payload.length * payload.length) := by ring
    rw [h2]
    omega
  have h := outer_exact payload rest 0 0 hbytes hbound
  simp only [PacketProcessor.calculate_checksum, hdata, hlen]
  rw [show ((0 : Nat) : Int) = 0 from rfl] at h
  rw [h, checksum_spec_eq]
  simp [Outcome.bind]

/-- C8 (amended) at the packet `DataPacket(101, "ab")`: the checksum is
`48 + 24 + 12 + 6 + 3` for `a` plus `98 + 49 + 24 + 12 + 6` for `b`. -/
theorem C8_checksum_sum_witness :
    ((DataPacket.ctor 101 [97, 98]).data = some (([97, 98] : List Int).map some ++ [some 0]) ∧
      (DataPacket.ctor 101 [97, 98]).data_len = ([97, 98] : List Int).length ∧
      (∀ b ∈ ([97, 98] : List Int), 0 ≤ b ∧ b ≤ 127) ∧
      ([97, 98] : List Int).length ≤ 2 ^ 28) ∧
    (PacketProcessor.ctor 50).calculate_checksum (some (DataPacket.ctor 101 [97, 98]))
      = .returns (checksum_spec [97, 98], PacketProcessor.ctor 50) ∧
    checksum_spec [97, 98] = 282 :=
  ⟨⟨by decide, by decide, by decide, by decide⟩,
   C8_checksum_sum (PacketProcessor.ctor 50) (DataPacket.ctor 101 [97, 98]) [97, 98] [some 0]
     (by decide) (by decide) (by decide) (by decide),
   by decide⟩

/-- C9: `calculate_checksum` returns 0 for an absent packet, for every packet
whose payload is absent (the placeholder of the default constructor, whatever
its `data_len` holds), and for every packet constructed from the empty
string. -/
theorem C9_checksum_zero (self : PacketProcessor) :
    self.calculate_checksum none = .returns (0, self) ∧
    (∀ (pkt_id : Int) (len : Nat),
      self.calculate_checksum (some { id := pkt_id, data_len := len, data := none })
        = .returns (0, self)) ∧
    (∀ indeterminate : Nat,
      self.calculate_checksum (some (DataPacket.ctor_default indeterminate))
        = .returns (0, self)) ∧
    (∀ pkt_id : Int, self.calculate_checksum (some (DataPacket.ctor pkt_id []))
        = .returns (0, self)) :=
  ⟨rfl, fun _ _ => rfl, fun _ => rfl, fun _ => rfl⟩

/-- C10: `calculate_checksum` is a function of the packet payload only: for
any two packets with equal length and equal payload bytes (whatever their ids
and whatever lies behind the payload) and any two processors (whatever their
capacity, buffer content and counters), the two results are equal, and each
call leaves its processor unchanged. -/
theorem C10_checksum_payload_only (p1 p2 : PacketProcessor) (k1 k2 : DataPacket)
    (hlen : k1.data_len = k2.data_len)
    (hdata : k1.data.map (List.take k1.data_len) = k2.data.map (List.take k2.data_len)) :
    (p1.calculate_checksum (some k1)).value = (p2.calculate_checksum (some k2)).value ∧
    (∀ s, (p1.calculate_checksum (some k1)).state = some s → s = p1) ∧
    (∀ s, (p2.calculate_checksum (some k2)).state = some s → s = p2) := by
  have hstate : ∀ (p : PacketProcessor) (k : DataPacket) (s : PacketProcessor),
      (p.calculate_checksum (some k)).state = some s → s = p := by
    intro p k s h
    simp only [PacketProcessor.calculate_checksum] at h
    cases hd : k.data with
    | none =>
      rw [hd] at h
      simp only [Outcome.state, Option.some.injEq] at h
      exact h.symm
    | some d =>
      rw [hd] at h
      simp only at h
      cases hc : checksum_outer d k.data_len 0 0 with
      | undefined f => rw [hc] at h; simp [Outcome.bind, Outcome.state] at h
      | returns v =>
        rw [hc] at h
        simp only [Outcome.bind, Outcome.state, Option.some.injEq] at h
        exact h.symm
  refine ⟨?_, hstate p1 k1, hstate p2 k2⟩
  simp only [PacketProcessor.calculate_checksum]
  cases h1 : k1.data with
  | none =>
    cases h2 : k2.data with
    | none => rfl
    | some d2 => rw [h1, h2] at hdata; simp at hdata
  | some d1 =>
    cases h2 : k2.data with
    | none => rw [h1, h2] at hdata; simp at hdata
    | some d2 =>
      rw [h1, h2] at hdata
      simp only [Option.map_some', Option.some.injEq] at hdata
      simp only
      rw [checksum_outer_take d1, checksum_outer_take d2, hdata, hlen]
      cases checksum_outer (List.take k2.data_len d2) k2.data_len 0 0 <;> rfl

/-- C10 at two packets with the payload `ab` and different ids, the second with
other bytes behind the payload, on processors of capacity 50 and 100. -/
theorem C10_checksum_payload_only_witness :
    ((DataPacket.ctor 101 [97, 98]).data_len
        = ({ id := 5, data_len := 2, data := some [some 97, some 98, some 33, none] }
            : DataPacket).data_len ∧
      (DataPacket.ctor 101 [97, 98]).data.map (List.take (DataPacket.ctor 101 [97, 98]).data_len)
        = ({ id := 5, data_len := 2, data := some [some 97, some 98, some 33, none] }
            : DataPacket).data.map (List.take 2)) ∧
    (((PacketProcessor.ctor 50).calculate_checksum (some (DataPacket.ctor 101 [97, 98]))).value
      = ((PacketProcessor.ctor 100).calculate_checksum
          (some { id := 5, data_len := 2, data := some [some 97, some 98, some 33, none] })).value ∧
    (∀ s, ((PacketProcessor.ctor 50).calculate_checksum
        (some (DataPacket.ctor 101 [97, 98]))).state = some s → s = PacketProcessor.ctor 50) ∧
    (∀ s, ((PacketProcessor.ctor 100).calculate_checksum
        (some { id := 5, data_len := 2, data := some [some 97, some 98, some 33, none] })).state
          = some s → s = PacketProcessor.ctor 100)) :=
  ⟨⟨by decide, by decide⟩,
   C10_checksum_payload_only (PacketProcessor.ctor 50) (PacketProcessor.ctor 100)
     (DataPacket.ctor 101 [97, 98])
     { id := 5, data_len := 2, data := some [some 97, some 98, some 33, none] }
     (by decide) (by decide)⟩

set_option maxRecDepth 100000 in
/-- C11, the code at the failing input: `DataPacket(1, "a\0b")` has length 3,
but of its owned block only the bytes at index 0 and 1 are written (`a` and
the zero byte): `strcpy` stops at the first zero byte.  The payload byte at
index 2 holds no value, while the content byte at index 2 is 98 (`b`), and
`calculate_checksum`, which reads `data_len` bytes, reads it. -/
theorem C11_zero_byte_payload_not_copied :
    (DataPacket.ctor 1 [97, 0, 98]).data_len = 3 ∧
      (DataPacket.ctor 1 [97, 0, 98]).data = some [some 97, some 0, none, none] ∧
      ([97, 0, 98] : List Int)[2]? = some 98 ∧
      (PacketProcessor.ctor 50).calculate_checksum (some (DataPacket.ctor 1 [97, 0, 98]))
        = .undefined .uninit_read := by
  decide

/-- Outside the defect the constructor is as the specification says: for
content without a zero byte the packet has the given id, the length of the
content, and an owned block that holds the content followed by the
terminator. -/
theorem ctor_zero_free (pkt_id : Int) (content : List Int) (hz : (0 : Int) ∉ content) :
    (DataPacket.ctor pkt_id content).id = pkt_id ∧
    (DataPacket.ctor pkt_id content).data_len = content.length ∧
    (DataPacket.ctor pkt_id content).data = some (content.map some ++ [some 0]) := by
  refine ⟨rfl, rfl, ?_⟩
  have htw : content.takeWhile (· ≠ 0) = content := by
    rw [List.takeWhile_eq_self_iff]
    intro x hx
    have : x ≠ 0 := fun e => hz (e ▸ hx)
    simpa using this
  simp only [DataPacket.ctor]
  rw [strcpy_c_str, htw]
  simp

/-- C12, the code at the failing input: the default constructor sets `id = -1`
and `data = nullptr` and does not write `data_len`, which keeps whatever value
the memory of the object holds (here 12345), not 0. -/
theorem C12_default_data_len_indeterminate :
    (DataPacket.ctor_default 12345).id = -1 ∧
      (DataPacket.ctor_default 12345).data = none ∧
      (DataPacket.ctor_default 12345).data_len = 12345 ∧
      (DataPacket.ctor_default 12345).data_len ≠ 0 := by
  decide

/-- C14, the code at the failing input: `process_packet(nullptr)` on the
processor of capacity 50, and a call with the placeholder packet (negative id),
return through the path that does not delete `status_pkt`: one more status
packet is live after the call than before. -/
theorem C14_invalid_packet_leaks_status :
    (PacketProcessor.ctor 50).status_live = 0 ∧
      ((PacketProcessor.ctor 50).process_packet none).state.map (·.status_live) = some 1 ∧
      ((PacketProcessor.ctor 50).process_packet (some (DataPacket.ctor_default 7))).state.map
        (·.status_live) = some 1 := by
  decide

/-- C16: for every processor whose buffer block has the `C` bytes of its
capacity and every packet (absent or present), every buffer index that
`process_packet` writes (the copied payload bytes and the terminator at index
`data_len`) is strictly less than `C`; the call never writes outside the
block, and the block still has `C` bytes when the call returns. -/
theorem C16_writes_in_bounds (self : PacketProcessor) (pkt : Option DataPacket)
    (hcap : self.m_process_buffer.length = self.m_buffer_capacity) :
    (∀ i ∈ self.process_packet_writes pkt, i < self.m_buffer_capacity) ∧
    self.process_packet pkt ≠ .undefined .invalid_write ∧
    (∀ r s', self.process_packet pkt = .returns (r, s') →
      s'.m_process_buffer.length = self.m_buffer_capacity) := by
  cases pkt with
  | none =>
    refine ⟨by simp [PacketProcessor.process_packet_writes], by simp [PacketProcessor.process_packet], ?_⟩
    intro r s' h
    simp only [PacketProcessor.process_packet, Outcome.returns.injEq, Prod.mk.injEq] at h
    rw [← h.2]
    exact hcap
  | some k =>
    by_cases hid : k.id < 0
    · refine ⟨by simp [PacketProcessor.process_packet_writes, hid],
        by simp [PacketProcessor.process_packet, hid], ?_⟩
      intro r s' h
      simp only [PacketProcessor.process_packet, hid, if_true, Outcome.returns.injEq,
        Prod.mk.injEq] at h
      rw [← h.2]
      exact hcap
    · by_cases hlong : k.data_len ≥ self.m_buffer_capacity
      · refine ⟨by simp [PacketProcessor.process_packet_writes, hid, hlong],
          by simp [PacketProcessor.process_packet, hid, hlong], ?_⟩
        intro r s' h
        simp only [PacketProcessor.process_packet, hid, hlong, if_true, if_false,
          Outcome.returns.injEq, Prod.mk.injEq] at h
        rw [← h.2]
        exact hcap
      · have hlt : k.data_len < self.m_buffer_capacity := by omega
        refine ⟨?_, ?_, ?_⟩
        · intro i hi
          simp only [PacketProcessor.process_packet_writes, hid, hlong, if_false,
            List.mem_append, List.mem_range, List.mem_singleton] at hi
          omega
        · simp only [PacketProcessor.process_packet, hid, hlong, if_false]
          by_cases hrel : self.releases ≠ 0
          · simp [hrel]
          · simp only [hrel, if_false]
            cases hd : k.data with
            | none => simp
            | some data =>
              simp only
              obtain ⟨h1, h2⟩ := strncpy_in_bounds k.data_len self.m_process_buffer data (by omega)
              cases hs : strncpy self.m_process_buffer data k.data_len with
              | undefined f =>
                rw [hs] at h1
                simpa [Outcome.bind] using h1
              | returns b1 =>
                have hb1 : k.data_len < b1.length := by rw [h2 b1 hs]; omega
                simp [Outcome.bind, store, hb1]
        · intro r s' h
          simp only [PacketProcessor.process_packet, hid, hlong, if_false] at h
          by_cases hrel : self.releases ≠ 0
          · simp [hrel] at h
          · simp only [hrel, if_false] at h
            cases hd : k.data with
            | none => rw [hd] at h; simp at h
            | some data =>
              rw [hd] at h
              simp only at h
              obtain ⟨_, h2⟩ := strncpy_in_bounds k.data_len self.m_process_buffer data (by omega)
              cases hs : strncpy self.m_process_buffer data k.data_len with
              | undefined f => rw [hs] at h; simp [Outcome.bind] at h
              | returns b1 =>
                have hb1 : k.data_len < b1.length := by rw [h2 b1 hs]; omega
                rw [hs] at h
                simp only [Outcome.bind, store, hb1, if_true, Outcome.returns.injEq,
                  Prod.mk.injEq] at h
                rw [← h.2]
                simp only [List.length_set]
                rw [h2 b1 hs, hcap]

/-- C16 at the calls of `main`: capacity 100 with length 99 and capacity 50
with length 49; the terminator is written at index 99 and at index 49. -/
theorem C16_writes_in_bounds_witness :
    ((PacketProcessor.ctor 100).m_process_buffer.length = (PacketProcessor.ctor 100).m_buffer_capacity ∧
      (PacketProcessor.ctor 50).m_process_buffer.length = (PacketProcessor.ctor 50).m_buffer_capacity) ∧
    (∀ i ∈ (PacketProcessor.ctor 100).process_packet_writes
        (some (DataPacket.ctor 3 (List.replicate 99 67))), i < 100) ∧
    (∀ i ∈ (PacketProcessor.ctor 50).process_packet_writes
        (some (DataPacket.ctor 5 (List.replicate 49 89))), i < 50) ∧
    99 ∈ (PacketProcessor.ctor 100).process_packet_writes
        (some (DataPacket.ctor 3 (List.replicate 99 67))) ∧
    49 ∈ (PacketProcessor.ctor 50).process_packet_writes
        (some (DataPacket.ctor 5 (List.replicate 49 89))) :=
  ⟨⟨by decide, by decide⟩,
   (C16_writes_in_bounds (PacketProcessor.ctor 100)
      (some (DataPacket.ctor 3 (List.replicate 99 67))) (by decide)).1,
   (C16_writes_in_bounds (PacketProcessor.ctor 50)
      (some (DataPacket.ctor 5 (List.replicate 49 89))) (by decide)).1,
   by decide, by decide⟩

set_option maxRecDepth 100000 in
/-- C13, refuted as stated: at level 34 the function `f` of the claim has the
value `34 * f(32) = 46620662575398912000`, which is above the largest `long`
(`2^63 - 1`): the product overflows in `generate_validation_code(34)`, which
cannot return `f(34)`. -/
theorem C13_level_34_counterexample :
    generate_validation_code 34 = .undefined .signed_overflow ∧
      generate_validation_code 32 = .returns 1371195958099968000 ∧
      validation_code 34 = 46620662575398912000 ∧
      (2 : Int) ^ 63 ≤ validation_code 34 := by
  decide

/-- C13, amended: for every level up to 33, `generate_validation_code` returns
`f(level)`, where `f(level) = 1` for `level ≤ 0`,
`f(level) = level + f(level - 1)` for odd positive level and
`f(level) = level * f(level - 2)` for even positive level; `f(0..5)` is
`1, 2, 2, 5, 8, 13` and `generate_validation_code(5) = 13`. -/
theorem C13_validation_code (level : Int) (hlevel : level ≤ 33) :
    generate_validation_code level = .returns (validation_code level) ∧
    (∀ l : Int, l ≤ 0 → validation_code l = 1) ∧
    (∀ l : Int, 0 < l → l % 2 = 1 → validation_code l = l + validation_code (l - 1)) ∧
    (∀ l : Int, 0 < l → l % 2 = 0 → validation_code l = l * validation_code (l - 2)) ∧
    [validation_code 0, validation_code 1, validation_code 2, validation_code 3,
      validation_code 4, validation_code 5] = [1, 2, 2, 5, 8, 13] ∧
    generate_validation_code 5 = .returns 13 := by
  refine ⟨?_, ?_, validation_code_odd_step, validation_code_even_step, by decide, by decide⟩
  · by_cases h0 : level ≤ 0
    · simp [generate_validation_code, validation_code, h0]
    · obtain ⟨n, rfl⟩ := Int.eq_ofNat_of_zero_le (by omega : 0 ≤ level)
      rw [generate_validation_code_natCast, validation_code_natCast]
      exact generate_validation_code_nat_le_33 n (by omega)
  · intro l hl
    simp [validation_code, hl]

/-- C13 (amended) at the call of `main`, `generate_validation_code(5)`. -/
theorem C13_validation_code_witness :
    (5 : Int) ≤ 33 ∧ generate_validation_code 5 = .returns (validation_code 5) ∧
      validation_code 5 = 13 :=
  ⟨by decide, (C13_validation_code 5 (by decide)).1, by decide⟩

/-- C17, the code at the failing input: `update_inventory(stock, 5)` on the
five items of `main` runs its loop for `i = 0..5` and reads `inventory[5]`,
outside the array.  The loop runs `size + 1` times: with `size = 4` it updates
all five items and counts 5 updates. -/
theorem C17_update_inventory_reads_index_size :
    stock.length = 5 ∧
      update_inventory stock 5 0 = .undefined .invalid_read ∧
      (update_inventory stock 4 0).state = some 5 ∧
      (update_inventory stock 4 0).value.map (fun inventory => inventory.map (·.quantity))
        = some [11, 6, 16, 9, 16] := by
  decide

/-- C18, refuted as stated: `processing_worker(2147483647)` on an empty log
cannot append `start_id + 1`, which is not an `int`: the sum overflows. -/
theorem C18_int_max_counterexample :
    processing_worker 2147483647 [] = .undefined .signed_overflow := by
  decide

/-- C18, amended: run on its own, `processing_worker(start_id)` for an `int`
`start_id` with `start_id + 49` in the range of `int` appends to the end of
`g_processed_ids` exactly the 50 values `start_id, start_id + 1, ...,
start_id + 49` in that order and leaves all earlier entries unchanged; running
the workers for 1000 and 2000 one after the other on an empty log gives the
100 entries `1000..1049, 2000..2049`. -/
theorem C18_worker_appends (start_id : Int) (g_processed_ids : List Int)
    (hint : -2 ^ 31 ≤ start_id) (hmax : start_id + 49 < 2 ^ 31) :
    processing_worker start_id g_processed_ids =
      .returns (g_processed_ids ++ (List.range 50).map fun (i : Nat) => start_id + (i : Int)) ∧
    (processing_worker 1000 []).bind (processing_worker 2000) =
      .returns ((List.range 50).map (fun (i : Nat) => 1000 + (i : Int)) ++
        (List.range 50).map (fun (i : Nat) => 2000 + (i : Int))) ∧
    ((List.range 50).map (fun (i : Nat) => 1000 + (i : Int)) ++
        (List.range 50).map (fun (i : Nat) => 2000 + (i : Int))).length = 100 := by
  refine ⟨?_, by decide, by decide⟩
  unfold processing_worker
  rw [processing_worker_loop_eq 50 0 start_id g_processed_ids hint (by push_cast; omega)]
  simp only [Nat.zero_add]

/-- C18 (amended) at the workers of `main`: start id 1000 on the empty log,
then start id 2000 on the log the first worker left. -/
theorem C18_worker_appends_witness :
    (-2 ^ 31 ≤ (1000 : Int) ∧ (1000 : Int) + 49 < 2 ^ 31 ∧
      -2 ^ 31 ≤ (2000 : Int) ∧ (2000 : Int) + 49 < 2 ^ 31) ∧
    processing_worker 1000 [] =
      .returns ([] ++ (List.range 50).map fun (i : Nat) => 1000 + (i : Int)) ∧
    processing_worker 2000 ((List.range 50).map fun (i : Nat) => 1000 + (i : Int)) =
      .returns ((List.range 50).map (fun (i : Nat) => 1000 + (i : Int)) ++
        (List.range 50).map fun (i : Nat) => 2000 + (i : Int)) :=
  ⟨⟨by decide, by decide, by decide, by decide⟩,
   (C18_worker_appends 1000 [] (by decide) (by decide)).1,
   (C18_worker_appends 2000 ((List.range 50).map fun (i : Nat) => 1000 + (i : Int))
      (by decide) (by decide)).1⟩

/-- C19: over unbounded integers `generate_validation_code` has the closed form
`f(2k) = 2^k * k!` and `f(2k + 1) = (2k + 1) + 2^k * k!` for every `k ≥ 0`;
consequently `f(level) ≥ 1` for every integer level, and every value that the
function returns in `long` is this `f(level)` and is at least 1. -/
theorem C19_closed_form :
    (∀ k : Nat, validation_code (2 * (k : Int)) = 2 ^ k * (k.factorial : Int) ∧
      validation_code (2 * (k : Int) + 1) = (2 * (k : Int) + 1) + 2 ^ k * (k.factorial : Int)) ∧
    (∀ level : Int, 1 ≤ validation_code level) ∧
    (∀ (level v : Int), generate_validation_code level = .returns v →
      v = validation_code level ∧ 1 ≤ v) := by
  have hpos : ∀ level : Int, 1 ≤ validation_code level := by
    intro level
    by_cases h0 : level ≤ 0
    · simp [validation_code, h0]
    · obtain ⟨n, rfl⟩ := Int.eq_ofNat_of_zero_le (by omega : 0 ≤ level)
      rw [validation_code_natCast]
      exact validation_code_nat_pos n
  refine ⟨?_, hpos, ?_⟩
  · intro k
    have e1 : 2 * (k : Int) = ((2 * k : Nat) : Int) := by push_cast; ring
    have e2 : 2 * (k : Int) + 1 = ((2 * k + 1 : Nat) : Int) := by push_cast; ring
    refine ⟨?_, ?_⟩
    · rw [e1, validation_code_natCast, validation_code_nat_even]
    · rw [e2, validation_code_natCast, validation_code_nat_odd]
      push_cast
      ring
  · intro level v h
    have hv : v = validation_code level := by
      by_cases h0 : level ≤ 0
      · simp only [generate_validation_code, h0, if_true, Outcome.returns.injEq] at h
        simp [validation_code, h0, h]
      · obtain ⟨n, rfl⟩ := Int.eq_ofNat_of_zero_le (by omega : 0 ≤ level)
        rw [generate_validation_code_natCast] at h
        rw [validation_code_natCast]
        exact generate_validation_code_nat_sound n v h
    exact ⟨hv, hv ▸ hpos level⟩

/-- C19 at `k = 2` (levels 4 and 5) and at the value that
`generate_validation_code(5)` returns. -/
theorem C19_closed_form_witness :
    generate_validation_code 5 = .returns 13 ∧
    validation_code (2 * ((2 : Nat) : Int)) = 2 ^ 2 * ((Nat.factorial 2 : Nat) : Int) ∧
    validation_code (2 * ((2 : Nat) : Int) + 1)
      = (2 * ((2 : Nat) : Int) + 1) + 2 ^ 2 * ((Nat.factorial 2 : Nat) : Int) ∧
    ((13 : Int) = validation_code 5 ∧ (1 : Int) ≤ 13) :=
  ⟨by decide, (C19_closed_form.1 2).1, (C19_closed_form.1 2).2,
   C19_closed_form.2.2 5 13 (by decide)⟩

end Challenge
